import Mathlib

/-!
Formal model of the IDW (inverse-distance-weighting) interpolation core of
`scripts/02_interpolar_clima_grid.py`: nearest-neighbour search with a
distance cutoff, per-point weighting with a global-mean fallback for
data-sparse points, and the batched processing loop.

Embedding choices:

* Scalars are `ℚ`.  The script computes with IEEE doubles; exact rationals
  keep every algebraic step of the source (reciprocal powers, renormalised
  weights, dot products, the arithmetic mean) faithful while remaining
  executable.
* The metric computed by `scipy.spatial.cKDTree` (planar Euclidean
  distance) is abstracted as an explicit parameter
  `dist : Point → Point → ℚ`, because Euclidean distances of rational
  points are irrational in general.  Every property verified here depends
  only on basic facts about the metric (nonnegativity, `dist p p = 0`),
  which appear as hypotheses where needed; concrete instantiations use the
  computable `sqDist`, which satisfies all of them.
* `tree.query(batch, k=MAX_NEIGHBORS, distance_upper_bound=max_dist_m)`
  (line 160) composed with the script's validity filter
  `dists[j] != float('inf')` (lines 165-169) is modelled by `query`:
  the at-most-`k` nearest in-range stations in ascending distance order.
  Out-of-range sentinel slots (`inf` distance, index `n`) of the scipy
  call are exactly the entries the filter removes, so the model returns
  the filtered list directly.
* The batched loop (lines 147-187) writes each slice
  `resultados[start:end]` once; the model `batchOutputs` concatenates the
  per-batch outputs in loop order, which is the same write discipline.
-/

namespace IDW

/-- A planar position (projected coordinates, metres), as a pair of rationals. -/
abbrev Point : Type := ℚ × ℚ

/-- A weather station: a position (from `coords_estacoes`, line 136) together
with its scalar climate value (from `valores_estacoes`, line 137). -/
structure Station where
  pos : Point
  val : ℚ

/-- The IDW parameters of the script: `POWER` (line 39), `max_dist_m`
(line 142, `MAX_DISTANCE_KM * 1000`), `MIN_NEIGHBORS` (line 41),
`MAX_NEIGHBORS` (line 42), and the `1e-12` division guard (line 178). -/
structure Config where
  power : ℕ
  maxDistance : ℚ
  minNeighbors : ℕ
  maxNeighbors : ℕ
  eps : ℚ

/-- The configuration constants fixed by the script:
`POWER = 2`, `MAX_DISTANCE_KM = 300` (used as `300 * 1000` metres),
`MIN_NEIGHBORS = 3`, `MAX_NEIGHBORS = 15`, epsilon `1e-12`. -/
def sourceConfig : Config :=
  ⟨2, 300 * 1000, 3, 15, 1 / 10 ^ 12⟩

/-- The script's `batch_size = 50000` (line 147). -/
def sourceBatchSize : ℕ := 50000

/-- Squared planar Euclidean distance: a computable stand-in metric used to
instantiate the abstract `dist` parameter on concrete inputs.  It is
nonnegative and vanishes exactly on coincident points, which is all the
verified properties use about the cKDTree metric. -/
def sqDist (a b : Point) : ℚ :=
  (a.1 - b.1) ^ 2 + (a.2 - b.2) ^ 2

/-- One `(distance, station_index)` pair per station, in station order:
the candidate set the k-d tree search ranges over. -/
def queryPairs (dist : Point → Point → ℚ) (tree : List Point) (p : Point) :
    List (ℚ × ℕ) :=
  (List.range tree.length).map fun i => (dist p (tree.getD i default), i)

/-- Ordering of `(distance, station_index)` pairs by distance. -/
def distLe (a b : ℚ × ℕ) : Prop := a.1 ≤ b.1

instance : DecidableRel distLe := fun a b => inferInstanceAs (Decidable (a.1 ≤ b.1))

instance : IsTotal (ℚ × ℕ) distLe := ⟨fun a b => le_total a.1 b.1⟩

instance : IsTrans (ℚ × ℕ) distLe := ⟨fun _ _ _ hab hbc => le_trans hab hbc⟩

/-- Model of the k-d tree query with distance cutoff composed with the
script's validity filter (lines 160-169): the at-most-`k` nearest stations
whose distance does not exceed `maxD`, sorted ascending by distance.  The
sort models the order in which the tree reports neighbours; the filter
removes exactly the out-of-range sentinel slots. -/
def query (dist : Point → Point → ℚ) (tree : List Point) (p : Point)
    (k : ℕ) (maxD : ℚ) : List (ℚ × ℕ) :=
  (((queryPairs dist tree p).insertionSort distLe).filter
    fun z => decide (z.1 ≤ maxD)).take k

/-- `np.mean(valores_estacoes)` (line 173): the arithmetic mean of all
station values. -/
def globalMean (values : List ℚ) : ℚ := values.sum / values.length

/-- `w = 1.0 / (d + 1e-12)**POWER` (line 178): one reciprocal-power weight
per neighbour distance. -/
def idwWeights (cfg : Config) (ds : List ℚ) : List ℚ :=
  ds.map fun d => 1 / (d + cfg.eps) ^ cfg.power

/-- `w /= w.sum()` (line 179): renormalisation of the weight vector. -/
def normalize (w : List ℚ) : List ℚ := w.map (· / w.sum)

/-- `np.dot` (line 180) on equal-length lists. -/
def dot (a b : List ℚ) : ℚ := (List.zipWith (· * ·) a b).sum

/-- `valores_estacoes[ix]` (line 180): the neighbour values selected by the
query's station indices. -/
def neighborVals (values : List ℚ) (q : List (ℚ × ℕ)) : List ℚ :=
  q.map fun z => values.getD z.2 0

/-- The IDW estimate of the non-fallback branch (lines 178-180): the dot
product of the renormalised weights with the neighbour values. -/
def idwEstimate (cfg : Config) (values : List ℚ) (q : List (ℚ × ℕ)) : ℚ :=
  dot (normalize (idwWeights cfg (q.map Prod.fst))) (neighborVals values q)

/-- The per-point body of the batch loop (lines 165-184): query the tree,
fall back to the global mean with neighbour count `0` when fewer than
`MIN_NEIGHBORS` valid neighbours were found, otherwise take the IDW
estimate and record the number of neighbours used. -/
def interpPoint (dist : Point → Point → ℚ) (cfg : Config) (tree : List Point)
    (values : List ℚ) (p : Point) : ℚ × ℕ :=
  let q := query dist tree p cfg.maxNeighbors cfg.maxDistance
  if q.length < cfg.minNeighbors then
    (globalMean values, 0)
  else
    (idwEstimate cfg values q, q.length)

/-- Failure of the interpolation core. -/
inductive EngineError : Type where
  | emptyInput : EngineError
deriving DecidableEq

/-- `tree = cKDTree(coords_estacoes)` (line 140): index construction, which
fails on an empty station array (the scipy constructor rejects the empty
coordinate array before any query can run). -/
def buildTree (coords : List Point) : Except EngineError (List Point) :=
  if coords.isEmpty then .error .emptyInput else .ok coords

/-- The batched loop of lines 147-187: `num_batches = len // batch_size + 1`
iterations; iteration `i` processes the contiguous slice
`[i * bs, min ((i+1) * bs, len))` of the grid (empty slices contribute
nothing, matching the `start >= end: break` guard) and writes its results
into the output buffer at exactly that slice. -/
def batchOutputs (dist : Point → Point → ℚ) (cfg : Config) (bs : ℕ)
    (tree : List Point) (values : List ℚ) (grid : List Point) :
    List (ℚ × ℕ) :=
  (List.range (grid.length / bs + 1)).flatMap fun i =>
    ((grid.drop (i * bs)).take bs).map (interpPoint dist cfg tree values)

/-- The interpolation engine end to end (lines 134-187): build the index
over the station coordinates, then run the batched loop against the
station values, producing one `(estimate, neighbour count)` pair per grid
point, index-aligned with the grid. -/
def runIDW (dist : Point → Point → ℚ) (cfg : Config) (bs : ℕ)
    (stations : List Station) (grid : List Point) :
    Except EngineError (List (ℚ × ℕ)) :=
  (buildTree (stations.map Station.pos)).map fun tree =>
    batchOutputs dist cfg bs tree (stations.map Station.val) grid

/-! ### Demonstration inputs used to instantiate the general theorems -/

/-- Three stations around the origin (values 10, 20, 30). -/
def demoStations : List Station := [⟨(0, 0), 10⟩, ⟨(1, 0), 20⟩, ⟨(0, 1), 30⟩]

/-- A one-point grid at the origin. -/
def demoGrid : List Point := [(0, 0)]

/-- A single station whose value is 42. -/
def farStations : List Station := [⟨(0, 0), 42⟩]

/-- Four grid points far outside the search radius of `farStations`
(squared distance at least `10 ^ 6 > 300000`). -/
def farGrid : List Point := [(1000, 0), (1001, 0), (1002, 0), (1003, 0)]

/-! ### List arithmetic helpers -/

theorem sum_map_div (l : List ℚ) (s : ℚ) : (l.map (· / s)).sum = l.sum / s := by
  simpa [div_eq_mul_inv] using List.sum_map_mul_right l id s⁻¹

theorem normalize_sum (w : List ℚ) (hw : w.sum ≠ 0) : (normalize w).sum = 1 := by
  unfold normalize
  rw [sum_map_div, div_self hw]

@[simp] theorem dot_nil_left (b : List ℚ) : dot [] b = 0 := rfl

@[simp] theorem dot_nil_right (a : List ℚ) : dot a [] = 0 := by
  cases a <;> rfl

@[simp] theorem dot_cons (x y : ℚ) (a b : List ℚ) :
    dot (x :: a) (y :: b) = x * y + dot a b := by
  unfold dot
  rw [List.zipWith_cons_cons, List.sum_cons]

theorem dot_map_div (w : List ℚ) (s : ℚ) :
    ∀ v : List ℚ, dot (w.map (· / s)) v = dot w v / s := by
  induction w with
  | nil => intro v; simp
  | cons x xs ih =>
      intro v
      cases v with
      | nil => simp
      | cons y ys =>
          simp only [List.map_cons, dot_cons, ih]
          rw [div_mul_eq_mul_div, div_add_div_same]

theorem dot_le_sum_mul (hi : ℚ) :
    ∀ w v : List ℚ, w.length = v.length → (∀ x ∈ w, 0 ≤ x) →
      (∀ y ∈ v, y ≤ hi) → dot w v ≤ w.sum * hi := by
  intro w
  induction w with
  | nil => intro v _ _ _; simp
  | cons x xs ih =>
      intro v hlen hw hv
      cases v with
      | nil => simp at hlen
      | cons y ys =>
          simp only [dot_cons, List.sum_cons, add_mul]
          have h1 : x * y ≤ x * hi :=
            mul_le_mul_of_nonneg_left (hv y (by simp)) (hw x (by simp))
          have h2 : dot xs ys ≤ xs.sum * hi :=
            ih ys (by simpa using hlen) (fun a ha => hw a (by simp [ha]))
              (fun a ha => hv a (by simp [ha]))
          exact add_le_add h1 h2

theorem sum_mul_le_dot (lo : ℚ) :
    ∀ w v : List ℚ, w.length = v.length → (∀ x ∈ w, 0 ≤ x) →
      (∀ y ∈ v, lo ≤ y) → lo * w.sum ≤ dot w v := by
  intro w
  induction w with
  | nil => intro v _ _ _; simp
  | cons x xs ih =>
      intro v hlen hw hv
      cases v with
      | nil => simp at hlen
      | cons y ys =>
          simp only [dot_cons, List.sum_cons, mul_add]
          have h1 : lo * x ≤ x * y := by
            rw [mul_comm]
            exact mul_le_mul_of_nonneg_left (hv y (by simp)) (hw x (by simp))
          have h2 : lo * xs.sum ≤ dot xs ys :=
            ih ys (by simpa using hlen) (fun a ha => hw a (by simp [ha]))
              (fun a ha => hv a (by simp [ha]))
          exact add_le_add h1 h2

theorem abs_dot_le (M : ℚ) :
    ∀ w v : List ℚ, w.length = v.length → (∀ x ∈ w, 0 ≤ x) →
      (∀ y ∈ v, |y| ≤ M) → |dot w v| ≤ w.sum * M := by
  intro w
  induction w with
  | nil => intro v _ _ hv; simp
  | cons x xs ih =>
      intro v hlen hw hv
      cases v with
      | nil => simp at hlen
      | cons y ys =>
          simp only [dot_cons, List.sum_cons, add_mul]
          have hx : 0 ≤ x := hw x (by simp)
          have h1 : |x * y| ≤ x * M := by
            rw [abs_mul, abs_of_nonneg hx]
            exact mul_le_mul_of_nonneg_left (hv y (by simp)) hx
          have h2 : |dot xs ys| ≤ xs.sum * M :=
            ih ys (by simpa using hlen) (fun a ha => hw a (by simp [ha]))
              (fun a ha => hv a (by simp [ha]))
          calc |x * y + dot xs ys| ≤ |x * y| + |dot xs ys| := abs_add _ _
            _ ≤ x * M + xs.sum * M := add_le_add h1 h2

theorem dot_map_sub (c : ℚ) :
    ∀ w v : List ℚ, w.length = v.length →
      dot w (v.map (· - c)) = dot w v - w.sum * c := by
  intro w
  induction w with
  | nil => intro v _; simp
  | cons x xs ih =>
      intro v hlen
      cases v with
      | nil => simp at hlen
      | cons y ys =>
          simp only [List.map_cons, dot_cons, List.sum_cons]
          rw [ih ys (by simpa using hlen)]
          ring

/-! ### Weight facts -/

theorem idwWeights_pos (cfg : Config) (ds : List ℚ) (heps : 0 < cfg.eps)
    (hds : ∀ d ∈ ds, 0 ≤ d) : ∀ w ∈ idwWeights cfg ds, 0 < w := by
  intro w hw
  unfold idwWeights at hw
  rw [List.mem_map] at hw
  obtain ⟨d, hd, rfl⟩ := hw
  have hpos : 0 < (d + cfg.eps) ^ cfg.power :=
    pow_pos (by linarith [hds d hd]) _
  exact div_pos one_pos hpos

theorem idwWeights_length (cfg : Config) (ds : List ℚ) :
    (idwWeights cfg ds).length = ds.length := by
  simp [idwWeights]

theorem idwWeights_sum_pos (cfg : Config) (ds : List ℚ) (heps : 0 < cfg.eps)
    (hds : ∀ d ∈ ds, 0 ≤ d) (hne : ds ≠ []) : 0 < (idwWeights cfg ds).sum := by
  refine List.sum_pos _ (idwWeights_pos cfg ds heps hds) ?_
  simpa [idwWeights] using hne

/-! ### Query facts -/

theorem query_length_le_k (dist : Point → Point → ℚ) (tree : List Point)
    (p : Point) (k : ℕ) (maxD : ℚ) : (query dist tree p k maxD).length ≤ k := by
  unfold query
  rw [List.length_take]
  exact min_le_left _ _

theorem query_length_le_tree (dist : Point → Point → ℚ) (tree : List Point)
    (p : Point) (k : ℕ) (maxD : ℚ) :
    (query dist tree p k maxD).length ≤ tree.length := by
  unfold query
  calc ((((queryPairs dist tree p).insertionSort distLe).filter
        fun z => decide (z.1 ≤ maxD)).take k).length
      ≤ (((queryPairs dist tree p).insertionSort distLe).filter
        fun z => decide (z.1 ≤ maxD)).length := by
        rw [List.length_take]; exact min_le_right _ _
    _ ≤ ((queryPairs dist tree p).insertionSort distLe).length :=
        List.length_filter_le _ _
    _ = (queryPairs dist tree p).length :=
        (List.perm_insertionSort distLe _).length_eq
    _ = tree.length := by simp [queryPairs]

theorem mem_query (dist : Point → Point → ℚ) (tree : List Point) (p : Point)
    (k : ℕ) (maxD : ℚ) (z : ℚ × ℕ) (hz : z ∈ query dist tree p k maxD) :
    z.2 < tree.length ∧ z.1 = dist p (tree.getD z.2 default) ∧ z.1 ≤ maxD := by
  unfold query at hz
  have h1 := (List.take_sublist _ _).subset hz
  rw [List.mem_filter] at h1
  obtain ⟨h2, hle⟩ := h1
  have h3 := ((List.perm_insertionSort distLe _).mem_iff).1 h2
  simp only [queryPairs, List.mem_map, List.mem_range] at h3
  obtain ⟨i, hi, rfl⟩ := h3
  exact ⟨hi, rfl, by simpa using hle⟩

theorem query_sorted (dist : Point → Point → ℚ) (tree : List Point) (p : Point)
    (k : ℕ) (maxD : ℚ) :
    List.Pairwise (fun a b : ℚ × ℕ => a.1 ≤ b.1) (query dist tree p k maxD) := by
  have hsorted : List.Pairwise distLe ((queryPairs dist tree p).insertionSort distLe) :=
    List.sorted_insertionSort distLe _
  have hsub : (query dist tree p k maxD).Sublist
      ((queryPairs dist tree p).insertionSort distLe) := by
    unfold query
    exact (List.take_sublist _ _).trans (List.filter_sublist _)
  exact List.Pairwise.sublist hsub hsorted

theorem query_dists_nonneg (dist : Point → Point → ℚ) (tree : List Point)
    (p : Point) (k : ℕ) (maxD : ℚ) (hdist : ∀ a b, 0 ≤ dist a b) :
    ∀ z ∈ query dist tree p k maxD, 0 ≤ z.1 := by
  intro z hz
  rw [(mem_query dist tree p k maxD z hz).2.1]
  exact hdist _ _

/-! ### Batching facts -/

theorem range_flatMap_chunk {α β : Type} (f : α → β) (bs : ℕ) (l : List α) :
    ∀ m : ℕ, (List.range m).flatMap (fun i => ((l.drop (i * bs)).take bs).map f)
      = (l.take (m * bs)).map f := by
  intro m
  induction m with
  | zero => simp
  | succ m ih =>
      rw [List.range_succ, List.flatMap_append, ih, Nat.succ_mul, List.take_add,
        List.map_append]
      simp

theorem batchOutputs_eq_map (dist : Point → Point → ℚ) (cfg : Config) (bs : ℕ)
    (tree : List Point) (values : List ℚ) (grid : List Point) (hbs : 0 < bs) :
    batchOutputs dist cfg bs tree values grid
      = grid.map (interpPoint dist cfg tree values) := by
  unfold batchOutputs
  rw [range_flatMap_chunk]
  have hlt : grid.length < (grid.length / bs + 1) * bs :=
    (Nat.div_lt_iff_lt_mul hbs).1 (Nat.lt_succ_self _)
  rw [List.take_of_length_le (le_of_lt hlt)]

theorem runIDW_ok (dist : Point → Point → ℚ) (cfg : Config) (bs : ℕ)
    (stations : List Station) (grid : List Point) (hst : stations ≠ []) :
    runIDW dist cfg bs stations grid
      = Except.ok (batchOutputs dist cfg bs (stations.map Station.pos)
          (stations.map Station.val) grid) := by
  have hne : (stations.map Station.pos).isEmpty = false := by
    cases stations with
    | nil => exact absurd rfl hst
    | cons s t => simp
  simp [runIDW, buildTree, hne, Except.map]

theorem runIDW_ok_map (dist : Point → Point → ℚ) (cfg : Config) (bs : ℕ)
    (stations : List Station) (grid : List Point) (hst : stations ≠ [])
    (hbs : 0 < bs) :
    runIDW dist cfg bs stations grid
      = Except.ok (grid.map (interpPoint dist cfg (stations.map Station.pos)
          (stations.map Station.val))) := by
  rw [runIDW_ok dist cfg bs stations grid hst,
    batchOutputs_eq_map dist cfg bs _ _ grid hbs]

/-! ### Claim theorems -/

/-- C4: for every query point, `k` and `max_distance`, the neighbour query
returns an ordered list of at most `k` `(distance, station_index)` pairs
sorted ascending by distance, excludes every station whose distance
exceeds `max_distance`, and every returned entry is a real station entry
(valid index, its actual distance) — never a sentinel or invalid slot. -/
theorem query_contract (dist : Point → Point → ℚ) (tree : List Point)
    (p : Point) (k : ℕ) (maxD : ℚ) :
    (query dist tree p k maxD).length ≤ k ∧
    List.Pairwise (fun a b : ℚ × ℕ => a.1 ≤ b.1) (query dist tree p k maxD) ∧
    (∀ z ∈ query dist tree p k maxD, z.1 ≤ maxD) ∧
    (∀ z ∈ query dist tree p k maxD,
      z.2 < tree.length ∧ z.1 = dist p (tree.getD z.2 default)) :=
  ⟨query_length_le_k dist tree p k maxD,
   query_sorted dist tree p k maxD,
   fun z hz => (mem_query dist tree p k maxD z hz).2.2,
   fun z hz => ⟨(mem_query dist tree p k maxD z hz).1,
     (mem_query dist tree p k maxD z hz).2.1⟩⟩

/-- C10: the recorded neighbour count of any grid point is either exactly 0
(the fallback case) or at least `min_neighbors`, at most `max_neighbors`,
and at most the number of stations; in particular it is never strictly
between 1 and `min_neighbors - 1` and never exceeds the station count. -/
theorem neighborCount_range (dist : Point → Point → ℚ) (cfg : Config)
    (stations : List Station) (values : List ℚ) (p : Point) :
    (interpPoint dist cfg (stations.map Station.pos) values p).2 = 0 ∨
      (cfg.minNeighbors ≤ (interpPoint dist cfg (stations.map Station.pos) values p).2 ∧
       (interpPoint dist cfg (stations.map Station.pos) values p).2 ≤ cfg.maxNeighbors ∧
       (interpPoint dist cfg (stations.map Station.pos) values p).2 ≤ stations.length) := by
  unfold interpPoint
  by_cases h : (query dist (stations.map Station.pos) p cfg.maxNeighbors
      cfg.maxDistance).length < cfg.minNeighbors
  · left
    simp [h]
  · right
    simp only [h, if_false]
    refine ⟨Nat.le_of_not_lt h, query_length_le_k _ _ _ _ _, ?_⟩
    have := query_length_le_tree dist (stations.map Station.pos) p
      cfg.maxNeighbors cfg.maxDistance
    simpa using this

/-- C6: building the spatial index from an empty station sequence fails with
the empty-input error, and the whole engine run fails the same way for
every grid, configuration and metric — before any query result is used. -/
theorem empty_stations_error :
    buildTree [] = Except.error EngineError.emptyInput ∧
    ∀ (dist : Point → Point → ℚ) (cfg : Config) (bs : ℕ) (grid : List Point),
      runIDW dist cfg bs [] grid = Except.error EngineError.emptyInput := by
  refine ⟨rfl, ?_⟩
  intro dist cfg bs grid
  rfl

/-- C9: running the engine on an empty grid-point sequence is valid — it
terminates normally with an empty output sequence and no error. -/
theorem empty_grid_ok (dist : Point → Point → ℚ) (cfg : Config) (bs : ℕ)
    (stations : List Station) (hst : stations ≠ []) (hbs : 0 < bs) :
    runIDW dist cfg bs stations [] = Except.ok [] := by
  rw [runIDW_ok_map dist cfg bs stations [] hst hbs]
  rfl

/-- C9 witness: the concrete engine run on the demonstration stations and
the empty grid returns an empty output. -/
theorem empty_grid_ok_witness :
    runIDW sqDist sourceConfig sourceBatchSize demoStations [] = Except.ok [] :=
  empty_grid_ok sqDist sourceConfig sourceBatchSize demoStations
    (by simp [demoStations]) (by norm_num [sourceBatchSize])

/-- C3: the output sequence of the engine does not depend on the batch
size — any two (positive) batch sizes give exactly equal outputs, in
particular `batch_size = 1` and `batch_size = len(grid)`. -/
theorem batching_invariance (dist : Point → Point → ℚ) (cfg : Config)
    (stations : List Station) (grid : List Point) (bs₁ bs₂ : ℕ)
    (h₁ : 0 < bs₁) (h₂ : 0 < bs₂) :
    runIDW dist cfg bs₁ stations grid = runIDW dist cfg bs₂ stations grid := by
  unfold runIDW
  cases hc : buildTree (stations.map Station.pos) with
  | error e => simp [Except.map]
  | ok tree =>
      simp only [Except.map]
      rw [batchOutputs_eq_map dist cfg bs₁ tree _ grid h₁,
        batchOutputs_eq_map dist cfg bs₂ tree _ grid h₂]

/-- C3 witness: on the concrete four-point grid, batch size 1 and batch
size 4 (the grid length) give exactly equal outputs. -/
theorem batching_invariance_witness :
    runIDW sqDist sourceConfig 1 farStations farGrid
      = runIDW sqDist sourceConfig 4 farStations farGrid :=
  batching_invariance sqDist sourceConfig farStations farGrid 1 4
    (by norm_num) (by norm_num)

/-- C1: a grid point whose neighbour query returns fewer than
`min_neighbors` valid neighbours receives the arithmetic mean of all
station values as its estimate, with neighbour count 0. -/
theorem fallback_emits_global_mean (dist : Point → Point → ℚ) (cfg : Config)
    (bs : ℕ) (stations : List Station) (grid : List Point) (j : ℕ) (gp : Point)
    (out : List (ℚ × ℕ))
    (hst : stations ≠ []) (hbs : 0 < bs)
    (hgp : grid[j]? = some gp)
    (hq : (query dist (stations.map Station.pos) gp cfg.maxNeighbors
      cfg.maxDistance).length < cfg.minNeighbors)
    (hrun : runIDW dist cfg bs stations grid = Except.ok out) :
    out[j]? = some (globalMean (stations.map Station.val), 0) := by
  rw [runIDW_ok_map dist cfg bs stations grid hst hbs] at hrun
  have hout : out = grid.map (interpPoint dist cfg (stations.map Station.pos)
      (stations.map Station.val)) := (Except.ok.inj hrun).symm
  subst hout
  rw [List.getElem?_map, hgp]
  simp [interpPoint, hq]

/-- C1 witness: the single faraway station leaves the query of each of the
four grid points empty (0 < MIN_NEIGHBORS = 3), and the engine emits the
global mean 42 with neighbour count 0 at index 0. -/
theorem fallback_emits_global_mean_witness :
    ([((42 : ℚ), 0), (42, 0), (42, 0), (42, 0)] : List (ℚ × ℕ))[0]?
      = some (globalMean (farStations.map Station.val), 0) :=
  fallback_emits_global_mean sqDist sourceConfig sourceBatchSize farStations
    farGrid 0 (1000, 0) _
    (by simp [farStations])
    (by norm_num [sourceBatchSize])
    (by simp [farGrid])
    (by norm_num [query, queryPairs, sqDist, farStations, sourceConfig, distLe,
      List.insertionSort, List.orderedInsert])
    (by norm_num [runIDW, buildTree, batchOutputs, interpPoint, query, queryPairs,
      globalMean, sqDist, farStations, farGrid, sourceConfig, sourceBatchSize,
      distLe, List.insertionSort, List.orderedInsert, Except.map]; decide)

/-- C5: with a nonempty station set the engine produces exactly one
`(estimate, neighbour count)` per grid point — the output is index-aligned
with the grid (each slot holds the unique per-point result, so every point
is total, falling back rather than failing) — and each output index is
covered by exactly one batch slice of the loop. -/
theorem slots_written_once (dist : Point → Point → ℚ) (cfg : Config) (bs : ℕ)
    (stations : List Station) (grid : List Point) (out : List (ℚ × ℕ))
    (hst : stations ≠ []) (hbs : 0 < bs)
    (hrun : runIDW dist cfg bs stations grid = Except.ok out) :
    out.length = grid.length ∧
    (∀ j : ℕ, out[j]? = (grid[j]?).map (interpPoint dist cfg
      (stations.map Station.pos) (stations.map Station.val))) ∧
    (∀ j : ℕ, j < grid.length → ∃! i : ℕ, i < grid.length / bs + 1 ∧
      i * bs ≤ j ∧ j < min ((i + 1) * bs) grid.length) := by
  rw [runIDW_ok_map dist cfg bs stations grid hst hbs] at hrun
  have hout : out = grid.map (interpPoint dist cfg (stations.map Station.pos)
      (stations.map Station.val)) := (Except.ok.inj hrun).symm
  subst hout
  refine ⟨by simp, fun j => List.getElem?_map _ _ _, ?_⟩
  intro j hj
  refine ⟨j / bs, ⟨?_, ?_, ?_⟩, ?_⟩
  · exact Nat.lt_succ_of_le (Nat.div_le_div_right (le_of_lt hj))
  · exact Nat.div_mul_le_self j bs
  · exact lt_min ((Nat.div_lt_iff_lt_mul hbs).1 (Nat.lt_succ_self _)) hj
  · rintro i ⟨-, hi2, hi3⟩
    have h3 : j < (i + 1) * bs := (lt_min_iff.1 hi3).1
    have ha : i ≤ j / bs := (Nat.le_div_iff_mul_le hbs).2 hi2
    have hb2 : j / bs < i + 1 := (Nat.div_lt_iff_lt_mul hbs).2 h3
    omega

/-- C5 witness: four grid points, batch size 2 (the grid length is an exact
multiple of the batch size), unique coverage instantiated by the theorem. -/
theorem slots_written_once_witness :
    ([((42 : ℚ), 0), (42, 0), (42, 0), (42, 0)] : List (ℚ × ℕ)).length
        = farGrid.length ∧
    (∀ j : ℕ, ([((42 : ℚ), 0), (42, 0), (42, 0), (42, 0)] : List (ℚ × ℕ))[j]?
      = (farGrid[j]?).map (interpPoint sqDist sourceConfig
        (farStations.map Station.pos) (farStations.map Station.val))) ∧
    (∀ j : ℕ, j < farGrid.length → ∃! i : ℕ, i < farGrid.length / 2 + 1 ∧
      i * 2 ≤ j ∧ j < min ((i + 1) * 2) farGrid.length) :=
  slots_written_once sqDist sourceConfig 2 farStations farGrid _
    (by simp [farStations])
    (by norm_num)
    (by norm_num [runIDW, buildTree, batchOutputs, interpPoint, query, queryPairs,
      globalMean, sqDist, farStations, farGrid, sourceConfig,
      distLe, List.insertionSort, List.orderedInsert, Except.map]; decide)

/-- Convexity of the renormalised IDW estimate: with positive epsilon,
nonnegative distances and a nonempty neighbour list, the estimate lies
between any lower and upper bound of the neighbour values. -/
theorem idwEstimate_bounds (cfg : Config) (values : List ℚ) (q : List (ℚ × ℕ))
    (lo hi : ℚ) (heps : 0 < cfg.eps) (hne : q ≠ [])
    (hd : ∀ z ∈ q, 0 ≤ z.1)
    (hb : ∀ z ∈ q, lo ≤ values.getD z.2 0 ∧ values.getD z.2 0 ≤ hi) :
    lo ≤ idwEstimate cfg values q ∧ idwEstimate cfg values q ≤ hi := by
  have hdsnn : ∀ d ∈ q.map Prod.fst, 0 ≤ d := by
    intro d hdmem
    rw [List.mem_map] at hdmem
    obtain ⟨z, hz, rfl⟩ := hdmem
    exact hd z hz
  have hdsne : q.map Prod.fst ≠ [] := by simpa using hne
  have hwnn : ∀ x ∈ idwWeights cfg (q.map Prod.fst), 0 ≤ x :=
    fun x hx => le_of_lt (idwWeights_pos cfg _ heps hdsnn x hx)
  have hsum : 0 < (idwWeights cfg (q.map Prod.fst)).sum :=
    idwWeights_sum_pos cfg _ heps hdsnn hdsne
  have hlen : (idwWeights cfg (q.map Prod.fst)).length
      = (neighborVals values q).length := by
    simp [idwWeights, neighborVals]
  have hv_lo : ∀ y ∈ neighborVals values q, lo ≤ y := by
    intro y hy
    unfold neighborVals at hy
    rw [List.mem_map] at hy
    obtain ⟨z, hz, rfl⟩ := hy
    exact (hb z hz).1
  have hv_hi : ∀ y ∈ neighborVals values q, y ≤ hi := by
    intro y hy
    unfold neighborVals at hy
    rw [List.mem_map] at hy
    obtain ⟨z, hz, rfl⟩ := hy
    exact (hb z hz).2
  have hest : idwEstimate cfg values q
      = dot (idwWeights cfg (q.map Prod.fst)) (neighborVals values q)
        / (idwWeights cfg (q.map Prod.fst)).sum := by
    unfold idwEstimate normalize
    rw [dot_map_div]
  constructor
  · rw [hest, le_div_iff₀ hsum]
    exact sum_mul_le_dot lo _ _ hlen hwnn hv_lo
  · rw [hest, div_le_iff₀ hsum]
    rw [mul_comm]
    exact dot_le_sum_mul hi _ _ hlen hwnn hv_hi

/-- C2: at a grid point with at least `min_neighbors` in-range stations the
engine takes the IDW branch: weights `1 / (d + eps) ^ power` renormalised
to sum exactly to 1, estimate the dot product of the renormalised weights
with the neighbour values (hence within any bounds enclosing the neighbour
values, in particular within their min and max), and neighbour count equal
to the number of neighbours used. -/
theorem idw_branch_convex (dist : Point → Point → ℚ) (cfg : Config)
    (tree : List Point) (values : List ℚ) (p : Point) (lo hi : ℚ)
    (hdist : ∀ a b, 0 ≤ dist a b)
    (heps : 0 < cfg.eps)
    (hmin : 1 ≤ cfg.minNeighbors)
    (hq : cfg.minNeighbors
      ≤ (query dist tree p cfg.maxNeighbors cfg.maxDistance).length)
    (hb : ∀ z ∈ query dist tree p cfg.maxNeighbors cfg.maxDistance,
      lo ≤ values.getD z.2 0 ∧ values.getD z.2 0 ≤ hi) :
    (normalize (idwWeights cfg ((query dist tree p cfg.maxNeighbors
        cfg.maxDistance).map Prod.fst))).sum = 1 ∧
    interpPoint dist cfg tree values p
      = (idwEstimate cfg values (query dist tree p cfg.maxNeighbors cfg.maxDistance),
         (query dist tree p cfg.maxNeighbors cfg.maxDistance).length) ∧
    lo ≤ idwEstimate cfg values (query dist tree p cfg.maxNeighbors cfg.maxDistance) ∧
    idwEstimate cfg values (query dist tree p cfg.maxNeighbors cfg.maxDistance) ≤ hi := by
  have hne : query dist tree p cfg.maxNeighbors cfg.maxDistance ≠ [] := by
    have : 0 < (query dist tree p cfg.maxNeighbors cfg.maxDistance).length :=
      lt_of_lt_of_le hmin hq
    exact List.ne_nil_of_length_pos this
  have hd : ∀ z ∈ query dist tree p cfg.maxNeighbors cfg.maxDistance, 0 ≤ z.1 :=
    query_dists_nonneg dist tree p cfg.maxNeighbors cfg.maxDistance hdist
  have hdsnn : ∀ d ∈ (query dist tree p cfg.maxNeighbors cfg.maxDistance).map
      Prod.fst, 0 ≤ d := by
    intro d hdmem
    rw [List.mem_map] at hdmem
    obtain ⟨z, hz, rfl⟩ := hdmem
    exact hd z hz
  have hdsne : (query dist tree p cfg.maxNeighbors cfg.maxDistance).map
      Prod.fst ≠ [] := by simpa using hne
  refine ⟨?_, ?_, idwEstimate_bounds cfg values _ lo hi heps hne hd hb⟩
  · exact normalize_sum _ (ne_of_gt (idwWeights_sum_pos cfg _ heps hdsnn hdsne))
  · unfold interpPoint
    simp [Nat.not_lt.2 hq]

/-- C2 witness: the origin grid point sees all three demonstration stations
(values 10, 20, 30) in range, so the weights renormalise to total 1, the
IDW branch is taken with neighbour count 3, and the estimate lies within
[10, 30]. -/
theorem idw_branch_convex_witness :
    (normalize (idwWeights sourceConfig ((query sqDist (demoStations.map Station.pos)
        (0, 0) sourceConfig.maxNeighbors sourceConfig.maxDistance).map Prod.fst))).sum = 1 ∧
    interpPoint sqDist sourceConfig (demoStations.map Station.pos)
        (demoStations.map Station.val) (0, 0)
      = (idwEstimate sourceConfig (demoStations.map Station.val)
          (query sqDist (demoStations.map Station.pos) (0, 0)
            sourceConfig.maxNeighbors sourceConfig.maxDistance),
         (query sqDist (demoStations.map Station.pos) (0, 0)
            sourceConfig.maxNeighbors sourceConfig.maxDistance).length) ∧
    10 ≤ idwEstimate sourceConfig (demoStations.map Station.val)
        (query sqDist (demoStations.map Station.pos) (0, 0)
          sourceConfig.maxNeighbors sourceConfig.maxDistance) ∧
    idwEstimate sourceConfig (demoStations.map Station.val)
        (query sqDist (demoStations.map Station.pos) (0, 0)
          sourceConfig.maxNeighbors sourceConfig.maxDistance) ≤ 30 :=
  idw_branch_convex sqDist sourceConfig (demoStations.map Station.pos)
    (demoStations.map Station.val) (0, 0) 10 30
    (by intro a b; simp only [sqDist]; positivity)
    (by norm_num [sourceConfig])
    (by norm_num [sourceConfig])
    (by norm_num [query, queryPairs, sqDist, demoStations, sourceConfig, distLe,
      List.insertionSort, List.orderedInsert])
    (by intro z hz
        norm_num [query, queryPairs, sqDist, demoStations, sourceConfig, distLe,
          List.insertionSort, List.orderedInsert] at hz
        rcases hz with rfl | rfl | rfl <;> norm_num [demoStations])

/-- A configuration violating the spec's validity conditions: `power = 0`
(so `power ≤ 0`), other fields as in the script. -/
def invalidConfig : Config :=
  ⟨0, 300 * 1000, 3, 15, 1 / 10 ^ 12⟩

/-- Modelled from the spec: the configuration validity predicate
(`power > 0`, `min_neighbors ≥ 1`, `max_neighbors ≥ min_neighbors`).
The script contains no such check and no `InvalidConfigurationError`; the
predicate is stated only to compare against the script's fixed constants. -/
def specConfigValid (cfg : Config) : Prop :=
  0 < cfg.power ∧ 1 ≤ cfg.minNeighbors ∧ cfg.minNeighbors ≤ cfg.maxNeighbors

/-- C7 counterexample: with `power = 0` — a configuration the claim says
must be rejected with `InvalidConfigurationError` before any interpolation
work starts — the engine performs no validation, runs to completion, and
returns ordinary interpolation output (the unweighted neighbour mean 20
with neighbour count 3). -/
theorem no_config_validation :
    invalidConfig.power = 0 ∧
    runIDW sqDist invalidConfig sourceBatchSize demoStations demoGrid
      = Except.ok [(20, 3)] := by
  refine ⟨rfl, ?_⟩
  norm_num [runIDW, buildTree, batchOutputs, interpPoint, query, queryPairs,
    idwEstimate, neighborVals, idwWeights, normalize, dot, globalMean, sqDist,
    demoStations, demoGrid, invalidConfig, sourceBatchSize, distLe,
    List.insertionSort, List.orderedInsert, Except.map]
  decide

/-- C7 amended: the script performs no configuration validation and defines
no `InvalidConfigurationError`; instead its configuration is hard-coded to
`POWER = 2`, `MIN_NEIGHBORS = 3`, `MAX_NEIGHBORS = 15`, which satisfies
the spec's validity conditions, and a run with this configuration on a
nonempty station set always completes with ordinary output. -/
theorem source_config_valid :
    specConfigValid sourceConfig ∧
    ∀ (dist : Point → Point → ℚ) (bs : ℕ) (stations : List Station)
      (grid : List Point), stations ≠ [] →
        ∃ out, runIDW dist sourceConfig bs stations grid = Except.ok out := by
  constructor
  · refine ⟨?_, ?_, ?_⟩ <;> norm_num [sourceConfig, specConfigValid]
  · intro dist bs stations grid hst
    exact ⟨_, runIDW_ok dist sourceConfig bs stations grid hst⟩

/-- C7 witness: the amended statement instantiated on the demonstration
stations and grid. -/
theorem source_config_valid_witness :
    specConfigValid sourceConfig ∧
    ∃ out, runIDW sqDist sourceConfig sourceBatchSize demoStations demoGrid
      = Except.ok out :=
  ⟨source_config_valid.1,
   source_config_valid.2 sqDist sourceBatchSize demoStations demoGrid
     (by simp [demoStations])⟩

/-- C8: for a grid point coinciding with a station (the query's first pair
has distance 0) the weight computation divides by no zero — every
denominator `(d + eps) ^ power` is strictly positive thanks to the
additive epsilon guard — and the coincident station dominates the
estimate: the estimate differs from that station's value by at most
`n * (eps ^ power / (δ + eps) ^ power) * M`, where `n` bounds the other
neighbours, `δ > 0` their minimal distance and `M` the value spread
(a quantity that vanishes as `eps → 0`, i.e. the estimate approaches the
coincident station's value; with the script's `eps = 1e-12` the factor is
at most `n * (1e-12 / δ) ^ 2`). -/
theorem coincident_point_dominates (cfg : Config) (values : List ℚ) (i₀ : ℕ)
    (rest : List (ℚ × ℕ)) (δ M : ℚ)
    (heps : 0 < cfg.eps) (hδ : 0 < δ) (hM : 0 ≤ M)
    (hrest : ∀ z ∈ rest, δ ≤ z.1)
    (hvals : ∀ z ∈ rest, |values.getD z.2 0 - values.getD i₀ 0| ≤ M) :
    (∀ d ∈ ((0, i₀) :: rest).map Prod.fst, 0 < (d + cfg.eps) ^ cfg.power) ∧
    |idwEstimate cfg values ((0, i₀) :: rest) - values.getD i₀ 0|
      ≤ rest.length * (cfg.eps ^ cfg.power / (δ + cfg.eps) ^ cfg.power) * M := by
  constructor
  · intro d hd
    simp only [List.map_cons, List.mem_cons, List.mem_map] at hd
    rcases hd with rfl | ⟨z, hz, rfl⟩
    · exact pow_pos (by linarith) _
    · have := hrest z hz
      exact pow_pos (by linarith) _
  · set v0 := values.getD i₀ 0 with hv0
    set w0 := 1 / (0 + cfg.eps) ^ cfg.power with hw0
    set wr := idwWeights cfg (rest.map Prod.fst) with hwr
    set nvr := rest.map (fun z => values.getD z.2 0) with hnvr
    have hw0pos : 0 < w0 := by
      rw [hw0]
      exact div_pos one_pos (pow_pos (by linarith) _)
    have hrest_nonneg : ∀ d ∈ rest.map Prod.fst, 0 ≤ d := by
      intro d hd
      rw [List.mem_map] at hd
      obtain ⟨z, hz, rfl⟩ := hd
      linarith [hrest z hz]
    have hwr_nonneg : ∀ x ∈ wr, 0 ≤ x :=
      fun x hx => le_of_lt (idwWeights_pos cfg _ heps hrest_nonneg x (hwr ▸ hx))
    have hwr_sum_nonneg : 0 ≤ wr.sum := List.sum_nonneg hwr_nonneg
    have hWpos : 0 < w0 + wr.sum := by linarith
    have hWne : w0 + wr.sum ≠ 0 := ne_of_gt hWpos
    have hlen2 : wr.length = nvr.length := by simp [hwr, hnvr, idwWeights]
    have hw_cons : idwWeights cfg (((0, i₀) :: rest).map Prod.fst) = w0 :: wr := by
      simp [idwWeights, hw0, hwr]
    have hnv_cons : neighborVals values ((0, i₀) :: rest) = v0 :: nvr := by
      simp [neighborVals, hv0, hnvr]
    have hest : idwEstimate cfg values ((0, i₀) :: rest)
        = (w0 * v0 + dot wr nvr) / (w0 + wr.sum) := by
      unfold idwEstimate normalize
      rw [dot_map_div, hw_cons, hnv_cons, dot_cons, List.sum_cons]
    have hkey : idwEstimate cfg values ((0, i₀) :: rest) - v0
        = (dot wr nvr - wr.sum * v0) / (w0 + wr.sum) := by
      rw [hest]
      field_simp
      ring
    have habs_elts : ∀ y ∈ nvr.map (· - v0), |y| ≤ M := by
      intro y hy
      rw [List.mem_map] at hy
      obtain ⟨a, ha, rfl⟩ := hy
      rw [hnvr, List.mem_map] at ha
      obtain ⟨z, hz, rfl⟩ := ha
      exact hvals z hz
    have hlen3 : wr.length = (nvr.map (· - v0)).length := by
      simpa using hlen2
    have habs : |dot wr (nvr.map (· - v0))| ≤ wr.sum * M :=
      abs_dot_le M wr _ hlen3 hwr_nonneg habs_elts
    have hwr_bound : wr.sum ≤ rest.length * (1 / (δ + cfg.eps) ^ cfg.power) := by
      have hbd : ∀ x ∈ wr, x ≤ 1 / (δ + cfg.eps) ^ cfg.power := by
        intro x hx
        rw [hwr] at hx
        unfold idwWeights at hx
        rw [List.mem_map] at hx
        obtain ⟨d, hd, rfl⟩ := hx
        rw [List.mem_map] at hd
        obtain ⟨z, hz, rfl⟩ := hd
        have hdge : δ ≤ z.1 := hrest z hz
        have hpow : (δ + cfg.eps) ^ cfg.power ≤ (z.1 + cfg.eps) ^ cfg.power :=
          pow_le_pow_left₀ (by linarith) (by linarith) _
        exact one_div_le_one_div_of_le (pow_pos (by linarith) _) hpow
      have hcard := List.sum_le_card_nsmul wr (1 / (δ + cfg.eps) ^ cfg.power) hbd
      have hlenwr : wr.length = rest.length := by simp [hwr, idwWeights]
      rw [hlenwr, nsmul_eq_mul] at hcard
      exact hcard
    calc |idwEstimate cfg values ((0, i₀) :: rest) - v0|
        = |dot wr (nvr.map (· - v0))| / (w0 + wr.sum) := by
          rw [hkey, ← dot_map_sub v0 wr nvr hlen2, abs_div, abs_of_pos hWpos]
      _ ≤ (wr.sum * M) / (w0 + wr.sum) := by
          apply div_le_div_of_nonneg_right habs hWpos.le
      _ ≤ (wr.sum * M) / w0 := by
          apply div_le_div_of_nonneg_left (by positivity) hw0pos
          linarith
      _ = wr.sum * M * (0 + cfg.eps) ^ cfg.power := by
          rw [hw0]
          have hne : ((0 : ℚ) + cfg.eps) ^ cfg.power ≠ 0 :=
            ne_of_gt (pow_pos (by linarith) _)
          field_simp
      _ = wr.sum * M * cfg.eps ^ cfg.power := by rw [zero_add]
      _ ≤ (rest.length * (1 / (δ + cfg.eps) ^ cfg.power)) * M * cfg.eps ^ cfg.power := by
          have hE : (0 : ℚ) ≤ cfg.eps ^ cfg.power := le_of_lt (pow_pos heps _)
          exact mul_le_mul_of_nonneg_right
            (mul_le_mul_of_nonneg_right hwr_bound hM) hE
      _ = rest.length * (cfg.eps ^ cfg.power / (δ + cfg.eps) ^ cfg.power) * M := by
          ring

/-- C8 witness: with values 10 and 20, the coincident station (index 0,
distance 0) and one other neighbour at distance 1, the estimate deviates
from 10 by at most `1 * (eps ^ 2 / (1 + eps) ^ 2) * 10` — with the
script's `eps = 1e-12` an error of under `10 ^ -23` — and no denominator
vanishes. -/
theorem coincident_point_dominates_witness :
    (∀ d ∈ ([((0 : ℚ), 0), (1, 1)] : List (ℚ × ℕ)).map Prod.fst,
      0 < (d + sourceConfig.eps) ^ sourceConfig.power) ∧
    |idwEstimate sourceConfig [10, 20] [((0 : ℚ), 0), (1, 1)]
        - ([(10 : ℚ), 20]).getD 0 0|
      ≤ ([((1 : ℚ), 1)] : List (ℚ × ℕ)).length
        * (sourceConfig.eps ^ sourceConfig.power
            / (1 + sourceConfig.eps) ^ sourceConfig.power) * 10 :=
  coincident_point_dominates sourceConfig [10, 20] 0 [(1, 1)] 1 10
    (by norm_num [sourceConfig])
    (by norm_num)
    (by norm_num)
    (by intro z hz; rw [List.mem_singleton] at hz; subst hz; norm_num)
    (by intro z hz; rw [List.mem_singleton] at hz; subst hz
        norm_num [List.getD])

end IDW
